import Mathlib

/-!
Shallow embedding of the KRONOS keystroke-capture pipeline.

Source files embedded here:
- `src/App.tsx`: component state (`entries`, `isRecording`, `analysis`,
  `isAnalyzing`, `lastKeyTime`), `handleKeyDown`, `clearLogs`, `runAnalysis`,
  `calculateWPM`, `avgInterval`.
- `src/unnamed/part_000` (types): `KeyEntry`.
- `src/unnamed/part_001` (geminiService): `analyzeKeystrokes` — its pure
  payload shaping (`sequence`, `timings`) and its error boundary.

Modelling conventions: JavaScript millisecond epoch times (`Date.now()`) are
`Int`; JavaScript number arithmetic on them (differences, means, `Math.round`)
is modelled exactly over `Int`/`ℚ` (the values involved are far inside the
float64-exact range). The `id` field produced by `Math.random()` and the raw
browser event fields (`e.key`, `e.code`) enter the model as inputs of the
corresponding operation. The network call inside `analyzeKeystrokes` enters as
an explicit `ApiOutcome` input; the `await`-interleaving of `runAnalysis` is
modelled as one atomic operation.
-/

/-- The `type` field of a `KeyEntry` (`src/unnamed/part_000`, line 7). -/
inductive KeyType where
  | alpha
  | numeric
  | special
  | command
deriving DecidableEq, Repr

/-- `KeyEntry` (`src/unnamed/part_000`, lines 1-8). Timestamps and intervals
are millisecond values as `Int`. -/
structure KeyEntry where
  id : String
  key : String
  code : String
  timestamp : Int
  interval : Int
  type : KeyType
deriving DecidableEq, Repr

/-- Character class of the regex `[a-zA-Z]`. -/
def isLatinLetter (c : Char) : Bool :=
  (decide ('a' ≤ c) && decide (c ≤ 'z')) || (decide ('A' ≤ c) && decide (c ≤ 'Z'))

/-- Character class of the regex `[0-9]`. -/
def isDigitChar (c : Char) : Bool :=
  decide ('0' ≤ c) && decide (c ≤ '9')

/-- `/^[a-zA-Z]$/.test(key)` (`src/App.tsx`, line 46): the string is exactly
one character and that character is a Latin letter. -/
def matchesAlpha (key : String) : Bool :=
  match key.data with
  | [c] => isLatinLetter c
  | _ => false

/-- `/^[0-9]$/.test(key)` (`src/App.tsx`, line 47). -/
def matchesNumeric (key : String) : Bool :=
  match key.data with
  | [c] => isDigitChar c
  | _ => false

/-- The `type` computation of `handleKeyDown` (`src/App.tsx`, lines 46-48):
nested conditional expression, first match wins. -/
def classify (key : String) : KeyType :=
  if matchesAlpha key then .alpha
  else if matchesNumeric key then .numeric
  else if key.length > 1 then .command
  else .special

/-- The component state of `App` (`src/App.tsx`, lines 19-23): `useState`
hooks plus the `lastKeyTime` ref. The DOM ref `logContainerRef` carries no
pipeline data and is omitted. -/
structure AppState where
  entries : List KeyEntry
  isRecording : Bool
  analysis : Option String
  isAnalyzing : Bool
  lastKeyTime : Int
deriving DecidableEq, Repr

/-- Initial state at component mount: empty log, recording on, no analysis,
`lastKeyTime = Date.now()` at mount, here `startTime` (`src/App.tsx`,
lines 19-23). -/
def initState (startTime : Int) : AppState :=
  { entries := [], isRecording := true, analysis := none,
    isAnalyzing := false, lastKeyTime := startTime }

/-- `handleKeyDown` (`src/App.tsx`, lines 33-52). Inputs: the fresh random
`id`, the event's `key` and `code`, and `now = Date.now()`. When not
recording it returns early; otherwise it computes the interval, advances
`lastKeyTime`, and appends the new entry. -/
def handleKeyDown (s : AppState) (id key code : String) (now : Int) : AppState :=
  if !s.isRecording then s
  else
    let interval := now - s.lastKeyTime
    { s with
      entries := s.entries ++
        [{ id := id, key := key, code := code, timestamp := now,
           interval := interval, type := classify key }],
      lastKeyTime := now }

/-- `clearLogs` (`src/App.tsx`, lines 59-62): `setEntries([])` and
`setAnalysis(null)`; nothing else is touched. -/
def clearLogs (s : AppState) : AppState :=
  { s with entries := [], analysis := none }

/-- The recording toggle (`src/App.tsx`, line 116): `setIsRecording(!isRecording)`. -/
def toggleRecording (s : AppState) : AppState :=
  { s with isRecording := !s.isRecording }

/-- `Math.round` of JavaScript on an exact rational: round half away from
zero does not match; JS rounds half toward +∞ (`Math.round(0.5) = 1`,
`Math.round(-0.5) = 0`), i.e. `⌊x + 1/2⌋`. -/
def jsRound (q : ℚ) : Int :=
  ⌊q + 1/2⌋

/-- `calculateWPM` (`src/App.tsx`, lines 86-92). -/
def calculateWPM (entries : List KeyEntry) : Int :=
  match entries with
  | [] => 0
  | e :: rest =>
    let lastT := ((e :: rest).getLast (List.cons_ne_nil e rest)).timestamp
    let timeInMinutes : ℚ := ((lastT : ℚ) - (e.timestamp : ℚ)) / 60000
    if timeInMinutes ≤ 0 then 0
    else
      let words : ℚ := ((e :: rest).length : ℚ) / 5
      jsRound (words / timeInMinutes)

/-- The fold of `entries.reduce((acc, curr) => acc + curr.interval, 0)`
(`src/App.tsx`, line 95). -/
def sumIntervals (entries : List KeyEntry) : Int :=
  entries.foldl (fun acc curr => acc + curr.interval) 0

/-- `avgInterval` (`src/App.tsx`, lines 94-96). -/
def avgInterval (entries : List KeyEntry) : Int :=
  if entries.length > 0 then
    jsRound ((sumIntervals entries : ℚ) / (entries.length : ℚ))
  else 0

/-- The payload shaped by `analyzeKeystrokes` (`src/unnamed/part_001`,
lines 8-9): `sequence` and `timings`. -/
structure Payload where
  sequence : String
  timings : List Int
deriving DecidableEq, Repr

/-- Lines 8-9 of `src/unnamed/part_001`:
`sequence = entries.map(e => e.key).join('')` and
`timings = entries.map(e => e.interval).slice(0, 50)`. -/
def mkPayload (entries : List KeyEntry) : Payload :=
  { sequence := String.join (entries.map (fun e => e.key)),
    timings := (entries.map (fun e => e.interval)).take 50 }

/-- Outcome of the remote `generateContent` call inside `analyzeKeystrokes`:
either it resolves with `response.text` (absent/empty text modelled as
`none`/`some ""`), or it throws. -/
inductive ApiOutcome where
  | success (text : Option String)
  | failure
deriving DecidableEq, Repr

/-- `analyzeKeystrokes` (`src/unnamed/part_001`, lines 4-39) as a function of
the entries and the call outcome. On success it returns
`response.text || "Unable to generate analysis."` (JS `||`: `undefined` and
`""` both fall through); the `catch` branch returns the fixed failure
string. It always returns a plain string, never propagates the error. -/
def analyzeKeystrokes (entries : List KeyEntry) (o : ApiOutcome) : String :=
  let _payload := mkPayload entries
  match o with
  | .success (some t) => if t = "" then "Unable to generate analysis." else t
  | .success none => "Unable to generate analysis."
  | .failure => "Analysis failed due to an API error."

/-- `runAnalysis` (`src/App.tsx`, lines 78-84). Returns the new state and
whether the collaborator was invoked. Below 5 entries it returns
immediately with the state untouched; otherwise the net effect of
`setIsAnalyzing(true); ... await ...; setAnalysis(result); setIsAnalyzing(false)`
is recorded atomically. -/
def runAnalysis (s : AppState) (o : ApiOutcome) : AppState × Bool :=
  if s.entries.length < 5 then (s, false)
  else
    ({ s with analysis := some (analyzeKeystrokes s.entries o),
              isAnalyzing := false }, true)

/-- One user-visible operation of the capture pipeline. `keyDown` carries the
generated id, the event's key and code, and `Date.now()` at the event. -/
inductive Event where
  | keyDown (id key code : String) (now : Int)
  | clear
  | toggle
  | analyze (o : ApiOutcome)
deriving DecidableEq, Repr

/-- One step of the pipeline. -/
def step (s : AppState) : Event → AppState
  | .keyDown id key code now => handleKeyDown s id key code now
  | .clear => clearLogs s
  | .toggle => toggleRecording s
  | .analyze o => (runAnalysis s o).1

/-- Run the pipeline from mount (capture start at `startTime`) through a
list of events. -/
def run (startTime : Int) (evs : List Event) : AppState :=
  evs.foldl step (initState startTime)

/-- The `Date.now()` values of the `keyDown` events of a trace, in order. -/
def kdTimes : List Event → List Int
  | [] => []
  | .keyDown _ _ _ now :: rest => now :: kdTimes rest
  | _ :: rest => kdTimes rest

/-- Reference classifier written from the specification's four rules
(spec §4.1), first match wins: length-1 Latin letter → alpha; else length-1
decimal digit → numeric; else textual length > 1 → command; else special. -/
def classifySpec (key : String) : KeyType :=
  if key.length = 1 ∧ key.data.any isLatinLetter then .alpha
  else if key.length = 1 ∧ key.data.any isDigitChar then .numeric
  else if key.length > 1 then .command
  else .special

/-- Convenience builder for concrete log entries used in witnesses. -/
def mkEntry (key : String) (ts iv : Int) : KeyEntry :=
  { id := "x", key := key, code := key, timestamp := ts, interval := iv,
    type := classify key }

/-- A five-entry sample state used in witnesses. -/
def fiveKeyState : AppState :=
  { entries := [mkEntry "a" 1 0, mkEntry "b" 2 1, mkEntry "c" 3 1,
      mkEntry "d" 4 1, mkEntry "e" 5 1],
    isRecording := true, analysis := none, isAnalyzing := false,
    lastKeyTime := 5 }

/-- A sample state whose tracker was advanced to 2000 by a keystroke and
which holds an analysis result; used to witness behaviour across a clear. -/
def preClearState : AppState :=
  { entries := [mkEntry "a" 2000 1000], isRecording := true,
    analysis := some "r", isAnalyzing := false, lastKeyTime := 2000 }

/-- The consecutive-interval property of a log: each entry after the first
carries exactly the timestamp difference to its predecessor. -/
def EntryChain (l : List KeyEntry) : Prop :=
  List.Chain' (fun a b => b.interval = b.timestamp - a.timestamp) l

/-- Invariant tying the log to the interval tracker: the log satisfies
`EntryChain` and, when non-empty, `lastKeyTime` equals the timestamp of the
last recorded entry. -/
def LogInv (s : AppState) : Prop :=
  EntryChain s.entries ∧ ∀ e ∈ s.entries.getLast?, s.lastKeyTime = e.timestamp

/-- Invariant for clear-free runs started at `start`: while the log is empty
the tracker still holds `start`, and the first entry's interval is measured
from `start`. -/
def HeadInv (start : Int) (s : AppState) : Prop :=
  (s.entries = [] → s.lastKeyTime = start) ∧
  ∀ e ∈ s.entries.head?, e.interval = e.timestamp - start

/-! ### Frame lemmas for `runAnalysis` -/

lemma runAnalysis_entries (s : AppState) (o : ApiOutcome) :
    ((runAnalysis s o).1).entries = s.entries := by
  by_cases h : s.entries.length < 5 <;> simp [runAnalysis, h]

lemma runAnalysis_lastKeyTime (s : AppState) (o : ApiOutcome) :
    ((runAnalysis s o).1).lastKeyTime = s.lastKeyTime := by
  by_cases h : s.entries.length < 5 <;> simp [runAnalysis, h]

lemma runAnalysis_isRecording (s : AppState) (o : ApiOutcome) :
    ((runAnalysis s o).1).isRecording = s.isRecording := by
  by_cases h : s.entries.length < 5 <;> simp [runAnalysis, h]

/-! ### The interval-chain invariant (claim C1) -/

lemma logInv_init (t : Int) : LogInv (initState t) := by
  simp [LogInv, EntryChain, initState]

lemma logInv_step (s : AppState) (e : Event) (h : LogInv s) : LogInv (step s e) := by
  obtain ⟨hchain, hlast⟩ := h
  cases e with
  | keyDown id key code now =>
    cases hrec : s.isRecording with
    | false =>
      rw [show step s (Event.keyDown id key code now) = s by
        simp [step, handleKeyDown, hrec]]
      exact ⟨hchain, hlast⟩
    | true =>
      simp only [step, handleKeyDown, hrec, Bool.not_true]
      rw [if_neg (by simp)]
      refine ⟨?_, ?_⟩
      · refine List.Chain'.append hchain (List.chain'_singleton _) ?_
        intro x hx y hy
        simp only [List.head?_cons, Option.mem_some_iff] at hy
        subst hy
        simpa using hlast x hx
      · intro e he
        simp only [List.getLast?_concat, Option.mem_some_iff] at he
        subst he
        rfl
  | clear =>
    simp [step, clearLogs, LogInv, EntryChain]
  | toggle =>
    exact ⟨hchain, hlast⟩
  | analyze o =>
    refine ⟨?_, ?_⟩
    · show EntryChain ((runAnalysis s o).1).entries
      rw [runAnalysis_entries]
      exact hchain
    · intro e he
      rw [show (step s (Event.analyze o)).entries = s.entries from runAnalysis_entries s o] at he
      rw [show (step s (Event.analyze o)).lastKeyTime = s.lastKeyTime from
        runAnalysis_lastKeyTime s o]
      exact hlast e he

lemma logInv_foldl (evs : List Event) (s : AppState) (h : LogInv s) :
    LogInv (evs.foldl step s) := by
  induction evs generalizing s with
  | nil => exact h
  | cons e rest ih => exact ih _ (logInv_step s e h)

lemma logInv_run (t : Int) (evs : List Event) : LogInv (run t evs) :=
  logInv_foldl evs (initState t) (logInv_init t)

/-! ### The first-entry invariant on clear-free runs (claim C1) -/

lemma headInv_step (start : Int) (s : AppState) (e : Event) (he : e ≠ Event.clear)
    (h : HeadInv start s) : HeadInv start (step s e) := by
  obtain ⟨hempty, hhead⟩ := h
  cases e with
  | keyDown id key code now =>
    cases hrec : s.isRecording with
    | false =>
      rw [show step s (Event.keyDown id key code now) = s by
        simp [step, handleKeyDown, hrec]]
      exact ⟨hempty, hhead⟩
    | true =>
      simp only [step, handleKeyDown, hrec, Bool.not_true]
      rw [if_neg (by simp)]
      refine ⟨?_, ?_⟩
      · intro h0
        exact absurd h0 (List.append_ne_nil_of_right_ne_nil _ (List.cons_ne_nil _ _))
      · intro e he'
        cases hes : s.entries with
        | nil =>
          rw [hes] at he'
          simp only [List.nil_append, List.head?_cons, Option.mem_some_iff] at he'
          subst he'
          show now - s.lastKeyTime = now - start
          rw [hempty hes]
        | cons x t =>
          rw [hes] at he'
          simp only [List.cons_append, List.head?_cons, Option.mem_some_iff] at he'
          subst he'
          exact hhead x (by rw [hes]; simp)
  | clear => exact absurd rfl he
  | toggle => exact ⟨hempty, hhead⟩
  | analyze o =>
    refine ⟨?_, ?_⟩
    · intro h0
      rw [show (step s (Event.analyze o)).entries = s.entries from runAnalysis_entries s o] at h0
      rw [show (step s (Event.analyze o)).lastKeyTime = s.lastKeyTime from
        runAnalysis_lastKeyTime s o]
      exact hempty h0
    · intro e he'
      rw [show (step s (Event.analyze o)).entries = s.entries from runAnalysis_entries s o] at he'
      exact hhead e he'

lemma headInv_foldl (start : Int) (evs : List Event) :
    ∀ s : AppState, Event.clear ∉ evs → HeadInv start s →
      HeadInv start (evs.foldl step s) := by
  induction evs with
  | nil => exact fun _ _ h => h
  | cons e rest ih =>
    intro s hnc h
    have h1 : e ≠ Event.clear := fun hq => hnc (hq ▸ List.mem_cons_self e rest)
    exact ih _ (fun hm => hnc (List.mem_cons_of_mem _ hm)) (headInv_step start s e h1 h)

/-! ### Non-negative intervals under a monotone time source (claim C4) -/

lemma intervals_nonneg_foldl (evs : List Event) :
    ∀ s : AppState, (∀ e ∈ s.entries, 0 ≤ e.interval) →
      List.Chain' (fun a b : Int => a ≤ b) (s.lastKeyTime :: kdTimes evs) →
      ∀ e ∈ (evs.foldl step s).entries, 0 ≤ e.interval := by
  induction evs with
  | nil => exact fun _ hs _ => hs
  | cons ev rest ih =>
    intro s hs hc
    cases ev with
    | keyDown id key code now =>
      rw [show kdTimes (Event.keyDown id key code now :: rest) = now :: kdTimes rest from rfl,
        List.chain'_cons] at hc
      obtain ⟨h1, h2⟩ := hc
      cases hrec : s.isRecording with
      | false =>
        show ∀ e ∈ (rest.foldl step (step s (Event.keyDown id key code now))).entries,
          0 ≤ e.interval
        rw [show step s (Event.keyDown id key code now) = s by
          simp [step, handleKeyDown, hrec]]
        apply ih s hs
        rw [List.chain'_cons'] at h2 ⊢
        exact ⟨fun y hy => le_trans h1 (h2.1 y hy), h2.2⟩
      | true =>
        show ∀ e ∈ (rest.foldl step (step s (Event.keyDown id key code now))).entries,
          0 ≤ e.interval
        rw [show step s (Event.keyDown id key code now)
          = { s with
              entries := s.entries ++
                [{ id := id, key := key, code := code, timestamp := now,
                   interval := now - s.lastKeyTime, type := classify key }],
              lastKeyTime := now } by
          simp [step, handleKeyDown, hrec]]
        apply ih
        · intro e he
          rcases List.mem_append.1 he with hmem | hmem
          · exact hs e hmem
          · simp only [List.mem_singleton] at hmem
            subst hmem
            simpa using h1
        · exact h2
    | clear =>
      show ∀ e ∈ (rest.foldl step (clearLogs s)).entries, 0 ≤ e.interval
      apply ih
      · intro e he
        simp [clearLogs] at he
      · exact hc
    | toggle =>
      exact ih (toggleRecording s) hs hc
    | analyze o =>
      apply ih
      · intro e he
        rw [show (step s (Event.analyze o)).entries = s.entries from runAnalysis_entries s o] at he
        exact hs e he
      · rw [show (step s (Event.analyze o)).lastKeyTime = s.lastKeyTime from
          runAnalysis_lastKeyTime s o]
        exact hc

/-! ### Arithmetic and string helper lemmas -/

lemma foldl_interval_eq (es : List KeyEntry) (acc : Int) :
    es.foldl (fun a c => a + c.interval) acc
      = acc + (es.map (fun e => e.interval)).sum := by
  induction es generalizing acc with
  | nil => simp
  | cons e t ih => simp [ih, add_assoc]

lemma sumIntervals_eq (es : List KeyEntry) :
    sumIntervals es = (es.map (fun e => e.interval)).sum := by
  simp [sumIntervals, foldl_interval_eq]

lemma foldl_append_length (l : List String) :
    ∀ s : String, (l.foldl (fun r t => r ++ t) s).length
      = s.length + (l.map String.length).sum := by
  induction l with
  | nil => simp
  | cons a t ih =>
    intro s
    simp only [List.foldl_cons, ih, String.length_append, List.map_cons, List.sum_cons]
    omega

lemma join_length (l : List String) :
    (String.join l).length = (l.map String.length).sum := by
  simp [String.join, foldl_append_length]

lemma keys_length_sum_of_singletons (es : List KeyEntry)
    (h : ∀ e ∈ es, e.key.length = 1) :
    ((es.map (fun e => e.key)).map String.length).sum = es.length := by
  induction es with
  | nil => rfl
  | cons e t ih =>
    simp only [List.map_cons, List.sum_cons, List.length_cons,
      h e (List.mem_cons_self e t), ih (fun x hx => h x (List.mem_cons_of_mem _ hx))]
    omega

/-! ### Claim theorems -/

/-- C2: the event classifier (the `type` computation of `handleKeyDown`)
agrees everywhere with the four-rule, first-match-wins reference definition
of spec §4.1 — so it is total and every symbol lands in exactly one of the
four categories — and it maps "Q" to alpha, "7" to numeric, "Enter" to
command, and "$" to special. -/
theorem C2_classifier_matches_spec :
    (∀ key : String, classify key = classifySpec key) ∧
    classify "Q" = KeyType.alpha ∧ classify "7" = KeyType.numeric ∧
    classify "Enter" = KeyType.command ∧ classify "$" = KeyType.special := by
  refine ⟨?_, by decide, by decide, by decide, by decide⟩
  intro key
  cases key with
  | mk data =>
    match data with
    | [] => rfl
    | [c] =>
      show classify (String.mk [c]) = classifySpec (String.mk [c])
      by_cases hA : isLatinLetter c = true
      · simp [classify, classifySpec, matchesAlpha, hA]
      · by_cases hN : isDigitChar c = true
        · simp [classify, classifySpec, matchesAlpha, matchesNumeric, hA, hN]
        · simp [classify, classifySpec, matchesAlpha, matchesNumeric, hA, hN]
    | c :: c2 :: t =>
      show classify (String.mk (c :: c2 :: t)) = classifySpec (String.mk (c :: c2 :: t))
      simp [classify, classifySpec, matchesAlpha, matchesNumeric]

/-- C3 (amended): the analysis payload's `timings` list is the interval
values of the first 50 entries in order — hence never more than 50 values —
and `sequence` is the separator-free, untruncated concatenation of every
entry's `key` in order; the character length of `sequence` equals the sum of
the key lengths, which equals the number of entries exactly when every key
is a single character (named keys such as "Enter" contribute more). -/
theorem C3_payload_shape (es : List KeyEntry) :
    (mkPayload es).timings = (es.take 50).map (fun e => e.interval) ∧
    (mkPayload es).timings.length ≤ 50 ∧
    (mkPayload es).sequence = String.join (es.map (fun e => e.key)) ∧
    (mkPayload es).sequence.length = ((es.map (fun e => e.key)).map String.length).sum ∧
    ((∀ e ∈ es, e.key.length = 1) → (mkPayload es).sequence.length = es.length) := by
  refine ⟨?_, ?_, rfl, ?_, ?_⟩
  · simp [mkPayload, List.map_take]
  · simp only [mkPayload]
    calc ((es.map (fun e => e.interval)).take 50).length
        = min 50 (es.map (fun e => e.interval)).length := List.length_take ..
      _ ≤ 50 := min_le_left ..
  · simp [mkPayload, join_length]
  · intro h
    rw [show (mkPayload es).sequence = String.join (es.map fun e => e.key) from rfl,
      join_length, keys_length_sum_of_singletons es h]

/-- C3 counterexample: the claim's "the sequence's length always equals the
log's length" fails on a one-entry log whose key is the named key "Enter":
the payload sequence is "Enter" of length 5 while the log has 1 entry. -/
theorem C3_counterexample :
    (mkPayload [mkEntry "Enter" 1000 0]).sequence = "Enter" ∧
    (mkPayload [mkEntry "Enter" 1000 0]).sequence.length = 5 ∧
    ([mkEntry "Enter" 1000 0] : List KeyEntry).length = 1 ∧
    (5 : Nat) ≠ 1 := by
  refine ⟨rfl, rfl, rfl, by decide⟩

/-- C3 witness: the amended conditional clause is non-vacuous — on a log of
two single-character keys the sequence length equals the log length. -/
theorem C3_payload_shape_witness :
    (mkPayload [mkEntry "a" 1000 0, mkEntry "b" 1200 200]).sequence.length
      = ([mkEntry "a" 1000 0, mkEntry "b" 1200 200] : List KeyEntry).length :=
  (C3_payload_shape [mkEntry "a" 1000 0, mkEntry "b" 1200 200]).2.2.2.2
    (by decide)

/-- C1 (amended): in every log produced by the capture pipeline the interval
of entry i (for i > 0) equals timestamp[i] − timestamp[i−1] exactly; the
interval of entry 0 equals its timestamp minus the capture-start time for
every run that contains no clear operation (after a clear it is instead
measured from the interval tracker's retained last-event time). -/
theorem C1_intervals (start : Int) (evs : List Event) :
    (∀ (i : Nat) (a b : KeyEntry),
        (run start evs).entries[i]? = some a →
        (run start evs).entries[i + 1]? = some b →
        b.interval = b.timestamp - a.timestamp) ∧
    (Event.clear ∉ evs →
      ∀ e0 : KeyEntry, (run start evs).entries[0]? = some e0 →
        e0.interval = e0.timestamp - start) := by
  constructor
  · intro i a b ha hb
    have hchain : EntryChain (run start evs).entries := (logInv_run start evs).1
    rw [EntryChain, List.chain'_iff_get] at hchain
    obtain ⟨hia, ha'⟩ := List.getElem?_eq_some_iff.1 ha
    obtain ⟨hib, hb'⟩ := List.getElem?_eq_some_iff.1 hb
    have h := hchain i (by omega)
    simp only [List.get_eq_getElem] at h
    rw [ha', hb'] at h
    exact h
  · intro hnc e0 h0
    have hh : HeadInv start (run start evs) :=
      headInv_foldl start evs (initState start) hnc ⟨fun _ => rfl, by simp [initState]⟩
    obtain ⟨hi0, h0'⟩ := List.getElem?_eq_some_iff.1 h0
    have : (run start evs).entries.head? = some e0 := by
      rw [List.head?_eq_getElem?, h0]
    exact hh.2 e0 (by rw [this]; rfl)

/-- C1 counterexample: the claim's "the interval of entry 0 equals its
timestamp minus the capture-start time" fails once a clear intervenes:
capture starts at 1000, a key arrives at 2000, the log is cleared, a key
arrives at 5000 — the produced log's entry 0 has interval 3000 (measured
from the 2000 keystroke), not 5000 − 1000 = 4000. -/
theorem C1_counterexample :
    ((run 1000 [Event.keyDown "k1" "a" "KeyA" 2000, Event.clear,
        Event.keyDown "k2" "b" "KeyB" 5000]).entries.map
      (fun e => (e.timestamp, e.interval))) = [((5000 : Int), (3000 : Int))] ∧
    (3000 : Int) ≠ 5000 - 1000 := by
  exact ⟨rfl, by decide⟩

/-- C1 witness: on the spec §8 example trace (capture start 1000, keys at
1300 and 1900) the theorem yields interval 600 = 1900 − 1300 for entry 1. -/
theorem C1_intervals_witness :
    (600 : Int) = 1900 - 1300 ∧ (0 : Int) = 1300 - 1300 :=
  ⟨(C1_intervals 1300 [Event.keyDown "k1" "a" "KeyA" 1300,
      Event.keyDown "k2" "b" "KeyB" 1900]).1 0
      { id := "k1", key := "a", code := "KeyA", timestamp := 1300,
        interval := 0, type := KeyType.alpha }
      { id := "k2", key := "b", code := "KeyB", timestamp := 1900,
        interval := 600, type := KeyType.alpha }
      (by decide) (by decide),
   (C1_intervals 1300 [Event.keyDown "k1" "a" "KeyA" 1300,
      Event.keyDown "k2" "b" "KeyB" 1900]).2 (by decide)
      { id := "k1", key := "a", code := "KeyA", timestamp := 1300,
        interval := 0, type := KeyType.alpha }
      (by decide)⟩

/-- C4 counterexample: `handleKeyDown` stores `now - lastKeyTime` with no
clamping or flagging. With capture started at 1000, a key at 2000 and a key
at 1500 (the time source stepping backwards), the stored log is
[interval 1000, interval −500]: a negative interval is stored. -/
theorem C4_counterexample :
    ((run 1000 [Event.keyDown "k1" "a" "KeyA" 2000,
        Event.keyDown "k2" "b" "KeyB" 1500]).entries.map
      (fun e => e.interval)) = [(1000 : Int), (-500 : Int)] ∧
    (-500 : Int) < 0 := by
  exact ⟨rfl, by decide⟩

/-- C4 (amended): the capture pipeline applies no clamping or flagging; the
stored interval is exactly `now − lastEventTime`. Every stored interval is
non-negative provided the time source is monotonic over the run — capture
start followed by the key-event times forms a nondecreasing chain. -/
theorem C4_nonneg_intervals (start : Int) (evs : List Event)
    (h : List.Chain' (fun a b : Int => a ≤ b) (start :: kdTimes evs)) :
    ∀ e ∈ (run start evs).entries, 0 ≤ e.interval :=
  intervals_nonneg_foldl evs (initState start) (by simp [initState]) h

/-- C4 witness: on the monotone trace with capture start 1000 and keys at
1200 and 1500, every stored interval is non-negative. -/
theorem C4_nonneg_intervals_witness :
    List.Chain' (fun a b : Int => a ≤ b)
      (1000 :: kdTimes [Event.keyDown "k1" "a" "KeyA" 1200,
        Event.keyDown "k2" "b" "KeyB" 1500]) ∧
    (0 : Int) ≤ 200 :=
  ⟨by norm_num [kdTimes, List.chain'_cons],
   C4_nonneg_intervals 1000
     [Event.keyDown "k1" "a" "KeyA" 1200, Event.keyDown "k2" "b" "KeyB" 1500]
     (by norm_num [kdTimes, List.chain'_cons])
     { id := "k1", key := "a", code := "KeyA", timestamp := 1200,
       interval := 200, type := KeyType.alpha }
     (by decide)⟩

lemma calculateWPM_cons (e : KeyEntry) (rest : List KeyEntry) :
    calculateWPM (e :: rest)
      = (if ((((e :: rest).getLast (List.cons_ne_nil e rest)).timestamp : ℚ)
            - (e.timestamp : ℚ)) / 60000 ≤ 0 then 0
         else jsRound ((((e :: rest).length : ℚ) / 5)
            / (((((e :: rest).getLast (List.cons_ne_nil e rest)).timestamp : ℚ)
              - (e.timestamp : ℚ)) / 60000))) := rfl

/-- C5: `calculateWPM` returns 0 on the empty log; on a non-empty log with
first entry `e0` and last entry `el` it returns 0 whenever the elapsed
duration `el.timestamp − e0.timestamp` is non-positive (in particular when
the two timestamps are equal), and otherwise — only under a strictly
positive elapsed duration — it returns round((n/5) / minutes) with
minutes = elapsed / 60000. -/
theorem C5_wpm :
    calculateWPM [] = 0 ∧
    ∀ (es : List KeyEntry) (e0 el : KeyEntry),
      es.head? = some e0 → es.getLast? = some el →
      ((el.timestamp - e0.timestamp ≤ 0 → calculateWPM es = 0) ∧
       (0 < el.timestamp - e0.timestamp →
          calculateWPM es
            = jsRound (((es.length : ℚ) / 5)
                / (((el.timestamp : ℚ) - (e0.timestamp : ℚ)) / 60000)))) := by
  refine ⟨rfl, ?_⟩
  intro es e0 el h0 hl
  match es with
  | [] => simp at h0
  | e :: rest =>
    simp only [List.head?_cons, Option.some.injEq] at h0
    rw [List.getLast?_eq_getLast (e :: rest) (List.cons_ne_nil e rest),
      Option.some.injEq] at hl
    subst h0
    subst hl
    have h60 : (0 : ℚ) < 60000 := by norm_num
    constructor
    · intro hd
      have hd' : (((e :: rest).getLast (List.cons_ne_nil e rest)).timestamp : ℚ)
          - (e.timestamp : ℚ) ≤ 0 := by exact_mod_cast hd
      rw [calculateWPM_cons, if_pos (by rw [div_le_iff₀ h60, zero_mul]; exact hd')]
    · intro hd
      have hd' : (0 : ℚ) < (((e :: rest).getLast (List.cons_ne_nil e rest)).timestamp : ℚ)
          - (e.timestamp : ℚ) := by exact_mod_cast hd
      rw [calculateWPM_cons, if_neg (not_le.mpr (div_pos hd' h60))]

/-- C5 witness: a log of two entries at timestamps 1000 and 7000 takes the
positive-duration branch and returns the rounded (n/5)/minutes value. -/
theorem C5_wpm_witness :
    (0 : Int) < (mkEntry "b" 7000 6000).timestamp - (mkEntry "a" 1000 0).timestamp ∧
    calculateWPM [mkEntry "a" 1000 0, mkEntry "b" 7000 6000]
      = jsRound (((([mkEntry "a" 1000 0, mkEntry "b" 7000 6000] :
            List KeyEntry).length : ℚ) / 5)
          / ((((mkEntry "b" 7000 6000).timestamp : ℚ)
            - ((mkEntry "a" 1000 0).timestamp : ℚ)) / 60000)) :=
  ⟨by decide,
   (C5_wpm.2 [mkEntry "a" 1000 0, mkEntry "b" 7000 6000]
      (mkEntry "a" 1000 0) (mkEntry "b" 7000 6000) rfl rfl).2 (by decide)⟩

/-- C6: the analysis collaborator is never invoked below the 5-entry
threshold — `runAnalysis` on a state whose log has fewer than 5 entries
makes no call (invoked flag `false`) and returns the state unchanged, and
the corresponding pipeline step is the identity. -/
theorem C6_threshold (s : AppState) (o : ApiOutcome)
    (h : s.entries.length < 5) :
    runAnalysis s o = (s, false) ∧ step s (Event.analyze o) = s := by
  have h1 : runAnalysis s o = (s, false) := by simp [runAnalysis, h]
  exact ⟨h1, by simp [step, h1]⟩

/-- C6 witness: the freshly mounted state has 0 < 5 entries and analysis on
it is a no-op. -/
theorem C6_threshold_witness :
    (initState 0).entries.length < 5 ∧
    runAnalysis (initState 0) ApiOutcome.failure = (initState 0, false) :=
  ⟨by decide, (C6_threshold (initState 0) ApiOutcome.failure (by decide)).1⟩

/-- C7: when the external analysis call fails, `analyzeKeystrokes` catches
the error at the boundary and returns the single opaque failure string; the
session log and the stats derived from it are unaffected, and on a state at
or above the threshold the failure string is what gets surfaced as the
held analysis result. -/
theorem C7_failure_boundary (s : AppState) :
    analyzeKeystrokes s.entries ApiOutcome.failure
      = "Analysis failed due to an API error." ∧
    ((runAnalysis s ApiOutcome.failure).1).entries = s.entries ∧
    ((runAnalysis s ApiOutcome.failure).1).isRecording = s.isRecording ∧
    ((runAnalysis s ApiOutcome.failure).1).lastKeyTime = s.lastKeyTime ∧
    avgInterval ((runAnalysis s ApiOutcome.failure).1).entries = avgInterval s.entries ∧
    calculateWPM ((runAnalysis s ApiOutcome.failure).1).entries = calculateWPM s.entries ∧
    (5 ≤ s.entries.length →
      ((runAnalysis s ApiOutcome.failure).1).analysis
        = some "Analysis failed due to an API error.") := by
  refine ⟨rfl, runAnalysis_entries s _, runAnalysis_isRecording s _,
    runAnalysis_lastKeyTime s _, by rw [runAnalysis_entries],
    by rw [runAnalysis_entries], ?_⟩
  intro h
  have h5 : ¬ s.entries.length < 5 := by omega
  simp [runAnalysis, h5, analyzeKeystrokes]

/-- C7 witness: a 5-entry state meets the threshold and surfaces the opaque
failure string after a failed call. -/
theorem C7_failure_boundary_witness :
    5 ≤ fiveKeyState.entries.length ∧
    ((runAnalysis fiveKeyState ApiOutcome.failure).1).analysis
      = some "Analysis failed due to an API error." :=
  ⟨by decide, (C7_failure_boundary fiveKeyState).2.2.2.2.2.2 (by decide)⟩

/-- C8: clearing the log is unconditional — for every prior state the
cleared state has an empty log, `totalKeys` (the entry count) 0,
`averageInterval` 0, `wpm` 0, and the held analysis result discarded. -/
theorem C8_clear_resets (s : AppState) :
    (clearLogs s).entries = [] ∧
    (clearLogs s).entries.length = 0 ∧
    avgInterval (clearLogs s).entries = 0 ∧
    calculateWPM (clearLogs s).entries = 0 ∧
    (clearLogs s).analysis = none :=
  ⟨rfl, rfl, rfl, rfl, rfl⟩

/-- C9: `avgInterval` is 0 on the empty log, and on every non-empty log it
equals the rounded arithmetic mean of the stored intervals. -/
theorem C9_average_interval :
    avgInterval [] = 0 ∧
    ∀ es : List KeyEntry, es ≠ [] →
      avgInterval es
        = jsRound ((((es.map (fun e => e.interval)).sum : Int) : ℚ)
            / (es.length : ℚ)) := by
  refine ⟨rfl, ?_⟩
  intro es hne
  have hlen : es.length > 0 := List.length_pos.mpr hne
  rw [avgInterval, if_pos hlen, sumIntervals_eq]

/-- C9 witness: a one-entry log with interval 300 has average 300. -/
theorem C9_average_interval_witness :
    avgInterval [mkEntry "a" 1000 300]
      = jsRound (((([mkEntry "a" 1000 300].map (fun e => e.interval)).sum : Int) : ℚ)
          / (([mkEntry "a" 1000 300] : List KeyEntry).length : ℚ)) :=
  C9_average_interval.2 [mkEntry "a" 1000 300] (by decide)

/-- C10: `clearLogs` does not reset the interval tracker — it changes only
the entries list and the held analysis result, leaving `lastKeyTime` (and
the recording/analyzing flags) unchanged, so the first key captured after a
clear gets an interval measured from the tracker's retained pre-clear value,
not from the moment of the reset. -/
theorem C10_clear_keeps_tracker (s : AppState) (id key code : String) (now : Int) :
    (clearLogs s).lastKeyTime = s.lastKeyTime ∧
    (clearLogs s).isRecording = s.isRecording ∧
    (clearLogs s).isAnalyzing = s.isAnalyzing ∧
    (clearLogs s).entries = [] ∧
    (clearLogs s).analysis = none ∧
    (s.isRecording = true →
      (handleKeyDown (clearLogs s) id key code now).entries
        = [{ id := id, key := key, code := code, timestamp := now,
             interval := now - s.lastKeyTime, type := classify key }]) := by
  refine ⟨rfl, rfl, rfl, rfl, rfl, ?_⟩
  intro hr
  simp [handleKeyDown, clearLogs, hr]

/-- C10 witness: with the tracker at 2000 from a pre-clear keystroke, the
first key after a clear at time 5000 is stored with interval 5000 − 2000. -/
theorem C10_clear_keeps_tracker_witness :
    preClearState.isRecording = true ∧
    (handleKeyDown (clearLogs preClearState) "k2" "b" "KeyB" 5000).entries
      = [{ id := "k2", key := "b", code := "KeyB", timestamp := 5000,
           interval := 5000 - 2000, type := classify "b" }] :=
  ⟨rfl,
   (C10_clear_keeps_tracker preClearState "k2" "b" "KeyB" 5000).2.2.2.2.2 rfl⟩
